import Mathlib

/-
  Verification of src/lib/actor-webworker.js: a shallow embedding of the
  worker body of createActorWebworker and proofs about it.

  Modelling conventions.  JS strings stay strings; addresses, message
  payloads and effect reply values are opaque strings.  The children Map
  is an association list kept in insertion order (JS Map semantics).
  A Promise settlement is an explicit event delivered to the machine.
  The done flag of a Deferred is set by a then/catch continuation right
  after the first settlement in the source; the model sets it at
  settlement time.  Every definition cites the source lines it embeds.
-/

/- Deferred, source lines 12-20.  resolve and reject settle the wrapped
   promise at most once: the first call wins and later calls are no-ops
   (plain Promise semantics). -/

inductive DState where
  | pending : DState
  | resolved : String → DState
  | rejected : String → DState
  deriving DecidableEq, Repr

structure Deferred where
  state : DState
  done : Bool
  deriving DecidableEq, Repr

/-- A freshly constructed Deferred: promise pending, done not yet set. -/
def Deferred.new : Deferred := ⟨.pending, false⟩

/-- this.resolve, source line 16: settles the promise if it is still
pending, otherwise does nothing; the done flag follows settlement
(source line 18). -/
def Deferred.resolve (d : Deferred) (v : String) : Deferred :=
  match d.state with
  | .pending => ⟨.resolved v, true⟩
  | _ => d

/-- this.reject, source line 15: rejects the promise if it is still
pending, otherwise does nothing; the done flag follows settlement
(source line 18). -/
def Deferred.reject (d : Deferred) (e : String) : Deferred :=
  match d.state with
  | .pending => ⟨.rejected e, true⟩
  | _ => d

/- RingBuffer, source lines 60-83.  A fixed array of slots each holding
   either nothing or a Deferred, plus a wrapping write cursor. -/

structure RingBuffer where
  size : Nat
  arr : List (Option Deferred)
  count : Nat
  deriving DecidableEq, Repr

/-- constructor, source lines 61-65: new Array(size) of empty slots. -/
def RingBuffer.new (n : Nat) : RingBuffer := ⟨n, List.replicate n none, 0⟩

/-- get, source lines 67-69; reading beyond the array yields undefined. -/
def RingBuffer.get (rb : RingBuffer) (i : Nat) : Option Deferred :=
  rb.arr.getD i none

/-- set, source lines 71-73. -/
def RingBuffer.set (rb : RingBuffer) (i : Nat) (v : Option Deferred) : RingBuffer :=
  {rb with arr := rb.arr.set i v}

/-- add, source lines 75-82: write into slot count, advance count and
wrap it to 0 once it reaches size, return the index used together with
the displaced occupant. -/
def RingBuffer.add (rb : RingBuffer) (v : Deferred) : (Nat × Option Deferred) × RingBuffer :=
  let i := rb.count
  let prev := rb.arr.getD i none
  let arr2 := rb.arr.set i (some v)
  let c1 := i + 1
  let c2 := if rb.size ≤ c1 then 0 else c1
  ((i, prev), ⟨rb.size, arr2, c2⟩)

/-- source line 86: let outstandingEffects = new RingBuffer(4048). -/
def outstandingEffects0 : RingBuffer := RingBuffer.new 4048

/-- Repeated adds, for the wrap-around invariant. -/
def foldAdd (rb : RingBuffer) (vs : List Deferred) : RingBuffer :=
  vs.foldl (fun b v => (b.add v).snd) rb

/- dispatchAsync, source lines 140-156 (the parts that touch the
   outstanding-effect table; the postMessage to the host and the
   stringification of function arguments are outside the table's state).
   A fresh Deferred is added; if the displaced occupant exists and its
   done flag is not set, it is rejected with a timeout reason. -/

structure DispatchOut where
  tbl : RingBuffer
  index : Nat
  returned : Deferred
  displaced : Option Deferred
  deriving DecidableEq, Repr

def dispatchAsync (tbl : RingBuffer) : DispatchOut :=
  let deferred := Deferred.new
  let ip := tbl.add deferred
  let displaced :=
    match ip.fst.snd with
    | some p => if p.done = false then some (p.reject "Promise timed out") else some p
    | none => none
  ⟨ip.snd, ip.fst.fst, deferred, displaced⟩

/-- Claim C7: a Deferred settles exactly once; the first of resolve or
reject fixes the outcome, the done flag becomes true on the first
settlement via either path, and every later resolve or reject call is a
no-op that neither throws nor alters the settled value. -/
theorem C7_deferred_single_settle (v v2 e e2 : String) :
    (Deferred.new.resolve v).state = .resolved v
    ∧ (Deferred.new.resolve v).done = true
    ∧ (Deferred.new.reject e).state = .rejected e
    ∧ (Deferred.new.reject e).done = true
    ∧ (Deferred.new.resolve v).resolve v2 = Deferred.new.resolve v
    ∧ (Deferred.new.resolve v).reject e = Deferred.new.resolve v
    ∧ (Deferred.new.reject e).reject e2 = Deferred.new.reject e
    ∧ (Deferred.new.reject e).resolve v = Deferred.new.reject e :=
  ⟨rfl, rfl, rfl, rfl, rfl, rfl, rfl, rfl⟩

/-- Helper: one add keeps the cursor inside [0, size) and the size fixed. -/
theorem add_count_lt (rb : RingBuffer) (v : Deferred) (h : rb.count < rb.size) :
    (rb.add v).snd.count < (rb.add v).snd.size ∧ (rb.add v).snd.size = rb.size := by
  unfold RingBuffer.add
  constructor
  · by_cases hc : rb.size ≤ rb.count + 1
    · simp [hc]
      omega
    · simp [hc]
      omega
  · rfl

/-- Helper: repeated adds keep the cursor inside [0, size). -/
theorem foldAdd_count_lt (vs : List Deferred) (rb : RingBuffer) (h : rb.count < rb.size) :
    (foldAdd rb vs).count < (foldAdd rb vs).size ∧ (foldAdd rb vs).size = rb.size := by
  induction vs generalizing rb with
  | nil => exact ⟨h, rfl⟩
  | cons v vs ih =>
    have hstep : foldAdd rb (v :: vs) = foldAdd (rb.add v).snd vs := rfl
    have h1 := add_count_lt rb v h
    have h2 := ih (rb.add v).snd (h1.1)
    rw [hstep, h2.2, h1.2]
    exact ⟨by rw [← h1.2, ← h2.2]; exact h2.1, rfl⟩

/-- Claim C8: add writes the handle into the slot at the current count,
returns the pair of that index and the slot's prior content, and
advances count by one modulo the capacity; from the default table of
capacity 4048 any sequence of adds keeps count inside [0, 4048). -/
theorem C8_ring_alloc (rb : RingBuffer) (v : Deferred) (vs : List Deferred) :
    (rb.add v).fst = (rb.count, rb.arr.getD rb.count none)
    ∧ (rb.add v).snd.arr = rb.arr.set rb.count (some v)
    ∧ (rb.add v).snd.size = rb.size
    ∧ (rb.count < rb.size → (rb.add v).snd.count = (rb.count + 1) % rb.size)
    ∧ (foldAdd outstandingEffects0 vs).count < 4048 := by
  refine ⟨rfl, rfl, rfl, ?_, ?_⟩
  · intro h
    unfold RingBuffer.add
    by_cases hc : rb.size ≤ rb.count + 1
    · have : rb.count + 1 = rb.size := by omega
      simp [hc, this, Nat.mod_self]
    · have : rb.count + 1 < rb.size := by omega
      simp [hc, Nat.mod_eq_of_lt this]
  · have h0 : outstandingEffects0.count < outstandingEffects0.size := by
      decide
    have h := foldAdd_count_lt vs outstandingEffects0 h0
    have hs : (foldAdd outstandingEffects0 vs).size = 4048 := h.2
    omega

/-- Witness for C8 at a concrete table whose cursor is in range. -/
theorem C8_ring_alloc_witness :
    ((⟨3, [none, none, none], 1⟩ : RingBuffer).add Deferred.new).snd.count = (1 + 1) % 3
    ∧ (foldAdd outstandingEffects0 [Deferred.new]).count < 4048 := by
  refine ⟨?_, (C8_ring_alloc ⟨3, [none, none, none], 1⟩ Deferred.new [Deferred.new]).2.2.2.2⟩
  exact (C8_ring_alloc ⟨3, [none, none, none], 1⟩ Deferred.new []).2.2.2.1 (by decide)

/-- Claim C4: when an asynchronous dispatch allocates a slot whose
previous occupant exists and is unresolved, that occupant is rejected
with the timeout reason exactly once (a repeated reject would be a
no-op), and the newly installed handle is a fresh pending Deferred,
unaffected by the rejection. -/
theorem C4_slot_reuse (tbl : RingBuffer) (p : Deferred)
    (hprev : tbl.arr.getD tbl.count none = some p)
    (hp : p.state = .pending) (hdone : p.done = false)
    (hcount : tbl.count < tbl.size) (hlen : tbl.arr.length = tbl.size) :
    (dispatchAsync tbl).displaced = some ⟨.rejected "Promise timed out", true⟩
    ∧ (dispatchAsync tbl).returned = Deferred.new
    ∧ (dispatchAsync tbl).returned.state = .pending
    ∧ (dispatchAsync tbl).index = tbl.count
    ∧ (dispatchAsync tbl).tbl.get tbl.count = some Deferred.new
    ∧ Deferred.reject ⟨.rejected "Promise timed out", true⟩ "Promise timed out"
        = ⟨.rejected "Promise timed out", true⟩ := by
  unfold dispatchAsync RingBuffer.add
  refine ⟨?_, rfl, rfl, rfl, ?_, rfl⟩
  · simp only [hprev, hdone]
    simp [Deferred.reject, hp]
  · unfold RingBuffer.get
    simp only []
    have hlt : tbl.count < tbl.arr.length := by omega
    rw [List.getD_eq_getElem?_getD, List.getElem?_set_self (by omega)]
    rfl

/-- Witness for C4: a two-slot table whose cursor points at a pending
occupant. -/
theorem C4_slot_reuse_witness :
    (dispatchAsync ⟨2, [none, some ⟨.pending, false⟩], 1⟩).displaced
        = some ⟨.rejected "Promise timed out", true⟩
    ∧ (dispatchAsync ⟨2, [none, some ⟨.pending, false⟩], 1⟩).returned.state = .pending := by
  have h := C4_slot_reuse ⟨2, [none, some ⟨.pending, false⟩], 1⟩ ⟨.pending, false⟩
      rfl rfl rfl (by decide) (by decide)
  exact ⟨h.1, h.2.2.1⟩

/- The worker state, source lines 85-95.  busy, stopped and the current
   behavior f live in the worker closure; name, path, parent, sender and
   children are the ambient identity bindings.  closed models
   self.close() having been called (the event loop is dead).  handled,
   dropped and arrivedTells are ghost logs: message payloads passed to
   behavior invocations, payloads swallowed by a handleMessage that found
   no behavior, and payloads of tell envelopes accepted while not
   stopped.  calls logs resolve/reject calls made on correlated handles,
   outbox logs notifications posted to the host. -/

structure Ident where
  name : String
  path : String
  parent : String
  children : List (String × String)
  deriving DecidableEq, Repr

/- A behavior is user code: it receives the message payload and the
   ambient identity bindings, may overwrite those bindings arbitrarily,
   and finishes in one of three ways: it throws, it returns a value
   synchronously, or it returns a thenable that later settles (source
   line 128 detects the thenable).  The returned value is classified the
   way processNext (source lines 97-111) classifies it: a function, a
   falsy value, or anything else. -/

mutual
inductive Behavior where
  | mk : (String → Ident → BOut) → Behavior
inductive BOut where
  | throws : Ident → BOut
  | sync : Ident → NextVal → BOut
  | pendingRes : Ident → NextVal → BOut
inductive NextVal where
  | fn : Behavior → NextVal
  | falsy : NextVal
  | other : NextVal
end

def Behavior.run : Behavior → String → Ident → BOut
  | .mk f => f

structure Msg where
  sender : String
  message : String
  deriving DecidableEq, Repr

inductive OutMsg where
  | stopNote : OutMsg
  | faulted : OutMsg
  deriving DecidableEq, Repr

inductive ECall where
  | resolveCall : Nat → String → ECall
  | rejectCall : Nat → String → ECall
  deriving DecidableEq, Repr

/- Envelopes, source lines 197-257.  The initialization factory is
   modelled as the Behavior it evaluates to (the source evaluates
   serialized factory text, line 206). -/

inductive Envelope where
  | init : Behavior → String → String → String → Envelope
  | tell : String → String → Envelope
  | childSpawned : String → String → Envelope
  | childStopped : String → Envelope
  | effectApplied : Nat → String → Envelope
  | effectFailed : Nat → String → Envelope
  | stopCmd : Envelope

/- An event is either an envelope delivered by the host or the
   settlement of the thenable returned by the last behavior invocation
   (the continuation registered at source line 129 firing). -/

inductive Event where
  | env : Envelope → Event
  | settle : Event

structure Ctx where
  busy : Bool
  stopped : Bool
  closed : Bool
  f : Option Behavior
  mailbox : List Msg
  name : String
  path : String
  parent : String
  sender : String
  children : Option (List (String × String))
  effects : RingBuffer
  pendingk : Option NextVal
  outbox : List OutMsg
  calls : List ECall
  handled : List String
  dropped : List String
  arrivedTells : List String

/-- Worker startup state, source lines 85-95: idle, no behavior, empty
mailbox, identity bindings undefined (children not yet a Map), fresh
outstanding-effect table. -/
def initCtx : Ctx :=
  ⟨false, false, false, none, [], "", "", "", "", none,
   RingBuffer.new 4048, none, [], [], [], [], []⟩

/-- JS Map.set on the children map: an existing key keeps its position
and gets the new value, a new key is appended (source line 219). -/
def mapSet (m : List (String × String)) (k v : String) : List (String × String) :=
  if (m.lookup k).isSome then m.map (fun p => if p.fst = k then (k, v) else p)
  else m ++ [(k, v)]

/-- JS Map.delete on the children map (source line 222). -/
def mapDelete (m : List (String × String)) (k : String) : List (String × String) :=
  m.filter (fun p => p.fst ≠ k)

/-- signalFault, source lines 162-167: post one faulted notification and
close the worker.  (The serialized error text itself is not modelled.) -/
def signalFault (s : Ctx) : Ctx :=
  {s with outbox := s.outbox ++ [.faulted], closed := true}

/-- stop, source lines 169-172: set the stopped flag and notify the host;
the worker is NOT closed. -/
def stopCtx (s : Ctx) : Ctx :=
  {s with stopped := true, outbox := s.outbox ++ [.stopNote]}

inductive InvOutcome where
  | threw : InvOutcome
  | next : NextVal → Bool → InvOutcome

def InvOutcome.isThrew : InvOutcome → Bool
  | .threw => true
  | .next _ _ => false

/-- Source lines 117-128: snapshot name (via string coercion, identity on
strings), path and parent (Object.freeze returns its argument) and a
value copy of children; invoke the behavior, which may mutate the
bindings; on normal return write the snapshots back into all four
bindings (lines 124-127).  On a throw the mutated bindings are left as
the behavior set them (the catch at line 133 skips the restore).  The
Bool in the outcome records whether the returned value was a thenable
(line 128). -/
def invokeRestore (bf : Behavior) (message : String) (id : Ident) : Ident × InvOutcome :=
  let nameSnap := id.name
  let pathSnap := id.path
  let parentSnap := id.parent
  let childSnap := id.children
  match bf.run message id with
  | .throws id2 => (id2, .threw)
  | .sync id2 nv =>
      ({id2 with name := nameSnap, path := pathSnap, parent := parentSnap,
                 children := childSnap}, .next nv false)
  | .pendingRes id2 nv =>
      ({id2 with name := nameSnap, path := pathSnap, parent := parentSnap,
                 children := childSnap}, .next nv true)

/-- State updates common to every completed behavior invocation: busy was
set at line 114, sender at line 122, the invocation is logged, and the
identity bindings hold whatever invokeRestore left in them. -/
def postInvoke (s : Ctx) (m : Msg) (id2 : Ident) : Ctx :=
  {s with busy := true, sender := m.sender, handled := s.handled ++ [m.message],
          name := id2.name, path := id2.path, parent := id2.parent,
          children := some id2.children}

/- handleMessage, source lines 113-138, together with the synchronous
   part of processNext, source lines 97-111 (processNext is inlined here
   because a TypeError it throws synchronously is caught by the
   try/catch of the handleMessage invocation that called it).  The first
   argument duplicates s.mailbox so that the recursion (dequeue and
   handle the next message, lines 100-102) is structural.
   Branches:
   - no behavior installed (line 116 guard fails): busy stays set and the
     message is swallowed;
   - children is still undefined: the snapshot at line 121 throws and the
     catch routes to signalFault;
   - behavior threw: signalFault (line 134);
   - thenable returned: register the settlement continuation (line 129)
     and stay busy;
   - falsy next: stop (line 107);
   - non-callable truthy next: TypeError (line 109) caught at line 133,
     signalFault;
   - callable next: install it (line 98) and drain the mailbox. -/
def hmGo : List Msg → Msg → Ctx → Ctx
  | mb, m, s =>
    match s.f with
    | none => {s with busy := true, dropped := s.dropped ++ [m.message]}
    | some bf =>
      match s.children with
      | none => signalFault {s with busy := true}
      | some ch =>
        match invokeRestore bf m.message ⟨s.name, s.path, s.parent, ch⟩ with
        | (id2, .threw) => signalFault (postInvoke s m id2)
        | (id2, .next nv true) => {postInvoke s m id2 with pendingk := some nv}
        | (id2, .next nv false) =>
          match nv with
          | .falsy => stopCtx (postInvoke s m id2)
          | .other => signalFault (postInvoke s m id2)
          | .fn b =>
            match mb with
            | [] => {postInvoke s m id2 with f := some b, busy := false}
            | m2 :: rest =>
                hmGo rest m2 {postInvoke s m id2 with f := some b, mailbox := rest}

def handleMessage (m : Msg) (s : Ctx) : Ctx :=
  hmGo s.mailbox m s

/-- processNext as invoked from the settlement continuation registered at
source line 129.  Same branches as the inlined copy above, except that a
TypeError thrown for an unsupported next value escapes into the promise
machinery as an unhandled rejection: no catch runs, no state changes. -/
def settleNext (nv : NextVal) (s : Ctx) : Ctx :=
  match nv with
  | .fn b =>
    match s.mailbox with
    | [] => {s with f := some b, busy := false}
    | m2 :: rest => handleMessage m2 {s with f := some b, mailbox := rest}
  | .falsy => stopCtx s
  | .other => s

/- self.onmessage, source lines 197-261, plus the settlement event.  A
   closed worker processes nothing.  Note the childSpawned case (lines
   218-220) has no break and falls through into childStopped (lines
   221-224): after the set, the entry keyed by payload.child is deleted.
   effectApplied (lines 225-233) clears the slot before resolving;
   effectFailed (lines 234-241) rejects without clearing (the rejected
   handle stays in its slot; rejecting an aliased handle is modelled by
   writing the rejected handle back).  Accessing the children map while
   it is still undefined throws and is caught by the outer try at line
   258, which routes to signalFault. -/
def step (s : Ctx) (e : Event) : Ctx :=
  if s.closed = true then s else
  match e with
  | .settle =>
    match s.pendingk with
    | none => s
    | some nv => settleNext nv {s with pendingk := none}
  | .env envl =>
    match envl with
    | .init b nm p par =>
        {s with f := some b, name := nm, path := p, parent := par, children := some []}
    | .tell snd msg =>
        if s.stopped = true then s
        else if s.busy = true then
          {s with mailbox := s.mailbox ++ [⟨snd, msg⟩],
                  arrivedTells := s.arrivedTells ++ [msg]}
        else handleMessage ⟨snd, msg⟩ {s with arrivedTells := s.arrivedTells ++ [msg]}
    | .childSpawned nm c =>
        match s.children with
        | none => signalFault s
        | some ch => {s with children := some (mapDelete (mapSet ch nm c) c)}
    | .childStopped c =>
        match s.children with
        | none => signalFault s
        | some ch => {s with children := some (mapDelete ch c)}
    | .effectApplied idx v =>
        match s.effects.get idx with
        | some _ =>
            {s with effects := s.effects.set idx none,
                    calls := s.calls ++ [.resolveCall idx v]}
        | none => {s with effects := s.effects.set idx none}
    | .effectFailed idx v =>
        match s.effects.get idx with
        | some d =>
            {s with effects := s.effects.set idx (some (d.reject v)),
                    calls := s.calls ++ [.rejectCall idx v]}
        | none => s
    | .stopCmd => {s with stopped := true, closed := true}

/-- A run of the worker from a given state. -/
def runFrom (s : Ctx) (tr : List Event) : Ctx :=
  tr.foldl step s

/-- A run of the worker from startup. -/
def runTrace (tr : List Event) : Ctx :=
  runFrom initCtx tr

/-- Claim C2: when a behavior invocation returns (synchronously or with a
thenable), any mutation it made to the bindings holding name, path,
parent and children is discarded: the four bindings are written back to
their pre-invocation values (name through the string coercion at source
line 118, which is the identity on strings) before the result is
processed, so the mutation has no effect on later invocations. -/
theorem C2_identity_restore (bf : Behavior) (msg : String) (id : Ident)
    (h : (invokeRestore bf msg id).snd.isThrew = false) :
    (invokeRestore bf msg id).fst = id := by
  cases hr : bf.run msg id with
  | throws id2 =>
      exfalso
      unfold invokeRestore at h
      rw [hr] at h
      simp [InvOutcome.isThrew] at h
  | sync id2 nv =>
      unfold invokeRestore
      rw [hr]
  | pendingRes id2 nv =>
      unfold invokeRestore
      rw [hr]

/-- A behavior that overwrites all four identity bindings and returns a
falsy next value. -/
def bfMut : Behavior := .mk (fun _ _ => .sync ⟨"X", "Y", "Z", [("k", "v")]⟩ .falsy)

def idW : Ident := ⟨"n", "p", "q", [("a", "b")]⟩

/-- Witness for C2: the mutating behavior leaves the bindings unchanged. -/
theorem C2_identity_restore_witness : (invokeRestore bfMut "m" idW).fst = idW :=
  C2_identity_restore bfMut "m" idW rfl

/-- Claim C5 evaluated on the code: because the childSpawned case falls
through into childStopped, handling childSpawned deletes the entry keyed
payload.child.  With children A maps-to p1, the envelope childSpawned
with name B and child A leaves only B maps-to A: the pre-existing entry
keyed A was removed, contradicting the claim.  With name equal to child,
the entry just added is itself deleted again. -/
theorem C5_child_spawned_fallthrough :
    (step {initCtx with children := some [("A", "p1")]}
        (.env (.childSpawned "B" "A"))).children = some [("B", "A")]
    ∧ (step {initCtx with children := some []}
        (.env (.childSpawned "A" "A"))).children = some [] :=
  ⟨rfl, rfl⟩

/-- Helper: clearing a slot makes it read back as empty, in or out of
range. -/
theorem getD_set_none (l : List (Option Deferred)) (i : Nat) :
    (l.set i none).getD i none = none := by
  rw [List.getD_eq_getElem?_getD, List.getElem?_set_self']
  cases h : l[i]? <;> simp

/-- Helper: a reply addressed to an index whose slot is empty changes
nothing. -/
theorem step_cleared_noop (r : Ctx) (idx : Nat) (v2 v3 : String)
    (hcl : r.closed = false) (hget : r.effects.get idx = none)
    (hset : r.effects.set idx none = r.effects) :
    step r (.env (.effectApplied idx v2)) = r
    ∧ step r (.env (.effectFailed idx v3)) = r := by
  constructor
  · simp only [step, hcl, Bool.false_eq_true, if_false, hget, hset]
    rw [← hcl]
  · simp only [step, hcl, Bool.false_eq_true, if_false, hget]

/-- Claim C6: handling effectApplied clears the table slot at the given
index and, since a handle was present, logs a resolve call with the
payload value; a second effectApplied for the now-cleared index, or an
effectFailed for it, leaves the state exactly unchanged and raises no
fault. -/
theorem C6_effect_applied (s : Ctx) (idx : Nat) (v v2 v3 : String) (d : Deferred)
    (hcl : s.closed = false) (hget : s.effects.get idx = some d) :
    (step s (.env (.effectApplied idx v))).effects = s.effects.set idx none
    ∧ (step s (.env (.effectApplied idx v))).calls = s.calls ++ [.resolveCall idx v]
    ∧ step (step s (.env (.effectApplied idx v))) (.env (.effectApplied idx v2))
        = step s (.env (.effectApplied idx v))
    ∧ step (step s (.env (.effectApplied idx v))) (.env (.effectFailed idx v3))
        = step s (.env (.effectApplied idx v)) := by
  have h1 : step s (.env (.effectApplied idx v))
      = {s with effects := s.effects.set idx none,
                calls := s.calls ++ [.resolveCall idx v]} := by
    simp only [step, hcl, Bool.false_eq_true, if_false, hget]
  have hget2 : (step s (.env (.effectApplied idx v))).effects.get idx = none := by
    rw [h1]
    simp only [RingBuffer.get, RingBuffer.set]
    exact getD_set_none s.effects.arr idx
  have hcl2 : (step s (.env (.effectApplied idx v))).closed = false := by
    rw [h1]
    exact hcl
  have hset2 : (step s (.env (.effectApplied idx v))).effects.set idx none
      = (step s (.env (.effectApplied idx v))).effects := by
    rw [h1]
    simp only [RingBuffer.set, List.set_set]
  have h2 := step_cleared_noop (step s (.env (.effectApplied idx v))) idx v2 v3 hcl2 hget2 hset2
  exact ⟨by rw [h1], by rw [h1], h2.1, h2.2⟩

/-- Witness for C6: a two-slot table with a pending handle in slot 0. -/
theorem C6_effect_applied_witness :
    (step {initCtx with effects := ⟨2, [some Deferred.new, none], 0⟩}
        (.env (.effectApplied 0 "42"))).effects
      = ({initCtx with effects := ⟨2, [some Deferred.new, none], 0⟩} : Ctx).effects.set 0 none
    ∧ (step {initCtx with effects := ⟨2, [some Deferred.new, none], 0⟩}
        (.env (.effectApplied 0 "42"))).calls = initCtx.calls ++ [.resolveCall 0 "42"] :=
  ⟨(C6_effect_applied {initCtx with effects := ⟨2, [some Deferred.new, none], 0⟩}
      0 "42" "x" "y" Deferred.new rfl rfl).1,
   (C6_effect_applied {initCtx with effects := ⟨2, [some Deferred.new, none], 0⟩}
      0 "42" "x" "y" Deferred.new rfl rfl).2.1⟩

/-- Claim C10: after the context stops itself (the stop of source lines
169-172, which sets the stopped flag and posts a stop notification but
does not close the worker), the stopped flag gates only tell envelopes:
childSpawned, childStopped, effectApplied and effectFailed are handled
exactly as they would be with the flag clear, while a tell is dropped
unchanged. -/
theorem C10_stopped_gates_only_tell (s : Ctx) (n c c2 snd msg v w : String) (i j : Nat) :
    stopCtx s = {s with stopped := true, outbox := s.outbox ++ [.stopNote]}
    ∧ step {s with stopped := true} (.env (.childSpawned n c))
        = {step s (.env (.childSpawned n c)) with stopped := true}
    ∧ step {s with stopped := true} (.env (.childStopped c2))
        = {step s (.env (.childStopped c2)) with stopped := true}
    ∧ step {s with stopped := true} (.env (.effectApplied i v))
        = {step s (.env (.effectApplied i v)) with stopped := true}
    ∧ step {s with stopped := true} (.env (.effectFailed j w))
        = {step s (.env (.effectFailed j w)) with stopped := true}
    ∧ step {s with stopped := true} (.env (.tell snd msg)) = {s with stopped := true} := by
  refine ⟨rfl, ?_, ?_, ?_, ?_, ?_⟩
  · cases hcl : s.closed
    · cases hch : s.children <;> simp [step, hcl, hch, signalFault]
    · simp [step, hcl]
  · cases hcl : s.closed
    · cases hch : s.children <;> simp [step, hcl, hch, signalFault]
    · simp [step, hcl]
  · cases hcl : s.closed
    · cases hg : s.effects.get i <;> simp [step, hcl, hg]
    · simp [step, hcl]
  · cases hcl : s.closed
    · cases hg : s.effects.get j <;> simp [step, hcl, hg]
    · simp [step, hcl]
  · cases hcl : s.closed <;> simp [step, hcl]


/-- Message payloads of a mailbox, oldest first. -/
def msgsOf (mb : List Msg) : List String := mb.map Msg.message

/-- The reachable-state invariant of the execution loop.  The ghost logs
split the accepted tell payloads into the ones already passed to a
behavior, the ones swallowed by a handling that found no behavior, and
the ones still queued; an idle context has an empty mailbox; an awaited
settlement implies busy; a swallowed message implies the context is
stuck busy with no settlement pending; an installed behavior or pending
settlement implies the children map has been initialized. -/
@[reducible] def LoopInv (s : Ctx) : Prop :=
  s.handled ++ s.dropped ++ msgsOf s.mailbox = s.arrivedTells
  ∧ (s.busy = false → s.mailbox = [] ∧ s.dropped = [])
  ∧ (s.pendingk.isSome = true → s.busy = true)
  ∧ (s.dropped ≠ [] → s.busy = true ∧ s.pendingk.isSome = false)
  ∧ (s.f.isSome = true → s.children.isSome = true)
  ∧ (s.pendingk.isSome = true → s.children.isSome = true)

/-- Helper: handleMessage preserves the invariant (stated over hmGo with
the duplicated mailbox argument explicit). -/
theorem hmGo_inv (mb : List Msg) : ∀ (m : Msg) (s : Ctx),
    s.mailbox = mb →
    s.pendingk.isSome = false →
    s.dropped = [] →
    (s.f.isSome = true → s.children.isSome = true) →
    s.handled ++ (m.message :: msgsOf s.mailbox) = s.arrivedTells →
    LoopInv (hmGo mb m s) ∧ (hmGo mb m s).arrivedTells = s.arrivedTells := by
  induction mb with
  | nil =>
    intro m s hmb hpk hdr hfc heq
    rw [hmGo]
    cases hf : s.f with
    | none =>
      refine ⟨⟨?_, ?_, ?_, ?_, ?_, ?_⟩, rfl⟩ <;> simp_all [msgsOf]
    | some bf =>
      cases hch : s.children with
      | none => exact absurd (hfc (by simp [hf])) (by simp [hch])
      | some ch =>
        rcases hir : invokeRestore bf m.message ⟨s.name, s.path, s.parent, ch⟩ with ⟨id2, out⟩
        cases out with
        | threw =>
          simp only [hir]
          refine ⟨⟨?_, ?_, ?_, ?_, ?_, ?_⟩, rfl⟩ <;>
            simp_all [signalFault, postInvoke, msgsOf]
        | next nv pend =>
          cases pend with
          | true =>
            simp only [hir]
            refine ⟨⟨?_, ?_, ?_, ?_, ?_, ?_⟩, rfl⟩ <;>
              simp_all [postInvoke, msgsOf]
          | false =>
            cases nv with
            | falsy =>
              simp only [hir]
              refine ⟨⟨?_, ?_, ?_, ?_, ?_, ?_⟩, rfl⟩ <;>
                simp_all [stopCtx, postInvoke, msgsOf]
            | other =>
              simp only [hir]
              refine ⟨⟨?_, ?_, ?_, ?_, ?_, ?_⟩, rfl⟩ <;>
                simp_all [signalFault, postInvoke, msgsOf]
            | fn b =>
              simp only [hir]
              refine ⟨⟨?_, ?_, ?_, ?_, ?_, ?_⟩, rfl⟩ <;>
                simp_all [postInvoke, msgsOf]
  | cons m2 rest ih =>
    intro m s hmb hpk hdr hfc heq
    rw [hmGo]
    cases hf : s.f with
    | none =>
      refine ⟨⟨?_, ?_, ?_, ?_, ?_, ?_⟩, rfl⟩ <;> simp_all [msgsOf]
    | some bf =>
      cases hch : s.children with
      | none => exact absurd (hfc (by simp [hf])) (by simp [hch])
      | some ch =>
        rcases hir : invokeRestore bf m.message ⟨s.name, s.path, s.parent, ch⟩ with ⟨id2, out⟩
        cases out with
        | threw =>
          simp only [hir]
          refine ⟨⟨?_, ?_, ?_, ?_, ?_, ?_⟩, rfl⟩ <;>
            simp_all [signalFault, postInvoke, msgsOf]
        | next nv pend =>
          cases pend with
          | true =>
            simp only [hir]
            refine ⟨⟨?_, ?_, ?_, ?_, ?_, ?_⟩, rfl⟩ <;>
              simp_all [postInvoke, msgsOf]
          | false =>
            cases nv with
            | falsy =>
              simp only [hir]
              refine ⟨⟨?_, ?_, ?_, ?_, ?_, ?_⟩, rfl⟩ <;>
                simp_all [stopCtx, postInvoke, msgsOf]
            | other =>
              simp only [hir]
              refine ⟨⟨?_, ?_, ?_, ?_, ?_, ?_⟩, rfl⟩ <;>
                simp_all [signalFault, postInvoke, msgsOf]
            | fn b =>
              simp only [hir]
              have heq2 : (s.handled ++ [m.message]) ++ (m2.message :: msgsOf rest)
                  = s.arrivedTells := by
                rw [List.append_assoc]
                simpa [msgsOf, hmb] using heq
              have hres := ih m2 {postInvoke s m id2 with f := some b, mailbox := rest}
                rfl hpk hdr (fun _ => rfl) heq2
              refine ⟨hres.1, ?_⟩
              rw [hres.2]
              rfl

/-- Helper: every event preserves the execution-loop invariant. -/
theorem step_inv (s : Ctx) (e : Event) (h : LoopInv s) : LoopInv (step s e) := by
  obtain ⟨h1, h2, h3, h4, h5, h6⟩ := h
  by_cases hcl : s.closed = true
  · simp only [step, hcl, if_true]
    exact ⟨h1, h2, h3, h4, h5, h6⟩
  · replace hcl : s.closed = false := by simpa using hcl
    cases e with
    | settle =>
      cases hpk : s.pendingk with
      | none =>
        simp only [step, hcl, Bool.false_eq_true, if_false, hpk]
        exact ⟨h1, h2, h3, h4, h5, h6⟩
      | some nv =>
        have hbz : s.busy = true := h3 (by simp [hpk])
        have hch : s.children.isSome = true := h6 (by simp [hpk])
        have hdr : s.dropped = [] := by
          by_contra hne
          have := (h4 hne).2
          simp [hpk] at this
        simp only [step, hcl, Bool.false_eq_true, if_false, hpk]
        cases nv with
        | falsy =>
          refine ⟨h1, ?_, ?_, ?_, h5, ?_⟩
          · intro hb
            simp only [settleNext, stopCtx] at hb
            rw [hbz] at hb
            simp at hb
          · intro _
            exact hbz
          · intro _
            exact ⟨hbz, rfl⟩
          · intro hx
            simp [settleNext, stopCtx] at hx
        | other =>
          refine ⟨h1, ?_, ?_, ?_, h5, ?_⟩
          · intro hb
            simp only [settleNext] at hb
            rw [hbz] at hb
            simp at hb
          · intro _
            exact hbz
          · intro _
            exact ⟨hbz, rfl⟩
          · intro hx
            simp [settleNext] at hx
        | fn b =>
          simp only [settleNext]
          cases hmb : s.mailbox with
          | nil =>
            refine ⟨?_, ?_, ?_, ?_, ?_, ?_⟩
            · simpa [msgsOf, hmb, hdr] using h1
            · intro _
              exact ⟨rfl, hdr⟩
            · intro hx
              simp at hx
            · intro hdne
              exact absurd hdr hdne
            · intro _
              exact hch
            · intro hx
              simp at hx
          | cons m2 rest =>
            have heqT : s.handled ++ (m2.message :: msgsOf rest) = s.arrivedTells := by
              have := h1
              rw [hdr, hmb] at this
              simpa [msgsOf] using this
            have hres := hmGo_inv rest m2
              {s with closed := false, pendingk := none, f := some b, mailbox := rest}
              rfl rfl hdr (fun _ => hch) heqT
            exact hres.1
    | env envl =>
      cases envl with
      | init b nm p par =>
        simp only [step, hcl, Bool.false_eq_true, if_false]
        exact ⟨h1, h2, h3, h4, fun _ => rfl, fun _ => rfl⟩
      | tell snd msg =>
        cases hst : s.stopped with
        | true =>
          simp only [step, hcl, Bool.false_eq_true, if_false, hst, if_true]
          exact ⟨h1, h2, h3, h4, h5, h6⟩
        | false =>
          cases hbz : s.busy with
          | true =>
            simp only [step, hcl, Bool.false_eq_true, if_false, hst, hbz, if_true]
            refine ⟨?_, ?_, ?_, ?_, h5, h6⟩
            · have hc1 : (s.handled ++ s.dropped ++ msgsOf s.mailbox) ++ [msg]
                  = s.arrivedTells ++ [msg] := by rw [h1]
              simpa [msgsOf, List.append_assoc] using hc1
            · intro hb
              simp at hb
            · intro _
              rfl
            · intro hdne
              exact ⟨rfl, (h4 hdne).2⟩
          | false =>
            have hmb0 : s.mailbox = [] := (h2 hbz).1
            have hdr0 : s.dropped = [] := (h2 hbz).2
            have hpk0 : s.pendingk.isSome = false := by
              cases hx : s.pendingk.isSome
              · rfl
              · exact absurd (h3 hx) (by simp [hbz])
            have hha : s.handled = s.arrivedTells := by
              simpa [hmb0, hdr0, msgsOf] using h1
            have heqT : s.handled ++ (msg :: msgsOf s.mailbox)
                = s.arrivedTells ++ [msg] := by
              rw [hmb0, hha]
              simp [msgsOf]
            simp only [step, hcl, Bool.false_eq_true, if_false, hst, hbz]
            have hh : handleMessage ⟨snd, msg⟩
                  {s with busy := false, stopped := false, closed := false,
                          arrivedTells := s.arrivedTells ++ [msg]}
                = hmGo [] ⟨snd, msg⟩
                  {s with busy := false, stopped := false, closed := false,
                          arrivedTells := s.arrivedTells ++ [msg]} := by
              unfold handleMessage
              simp only [hmb0]
            rw [hh]
            exact (hmGo_inv [] ⟨snd, msg⟩
              {s with busy := false, stopped := false, closed := false,
                      arrivedTells := s.arrivedTells ++ [msg]}
              hmb0 hpk0 hdr0 h5 heqT).1
      | childSpawned nm c =>
        cases hch : s.children with
        | none =>
          simp only [step, hcl, Bool.false_eq_true, if_false, hch, signalFault]
          exact ⟨h1, h2, h3, h4, fun hx => absurd (h5 hx) (by simp [hch]),
            fun hx => absurd (h6 hx) (by simp [hch])⟩
        | some ch =>
          simp only [step, hcl, Bool.false_eq_true, if_false, hch]
          exact ⟨h1, h2, h3, h4, fun _ => rfl, fun _ => rfl⟩
      | childStopped c =>
        cases hch : s.children with
        | none =>
          simp only [step, hcl, Bool.false_eq_true, if_false, hch, signalFault]
          exact ⟨h1, h2, h3, h4, fun hx => absurd (h5 hx) (by simp [hch]),
            fun hx => absurd (h6 hx) (by simp [hch])⟩
        | some ch =>
          simp only [step, hcl, Bool.false_eq_true, if_false, hch]
          exact ⟨h1, h2, h3, h4, fun _ => rfl, fun _ => rfl⟩
      | effectApplied idx v =>
        cases hg : s.effects.get idx with
        | none =>
          simp only [step, hcl, Bool.false_eq_true, if_false, hg]
          exact ⟨h1, h2, h3, h4, h5, h6⟩
        | some d =>
          simp only [step, hcl, Bool.false_eq_true, if_false, hg]
          exact ⟨h1, h2, h3, h4, h5, h6⟩
      | effectFailed idx v =>
        cases hg : s.effects.get idx with
        | none =>
          simp only [step, hcl, Bool.false_eq_true, if_false, hg]
          exact ⟨h1, h2, h3, h4, h5, h6⟩
        | some d =>
          simp only [step, hcl, Bool.false_eq_true, if_false, hg]
          exact ⟨h1, h2, h3, h4, h5, h6⟩
      | stopCmd =>
        simp only [step, hcl, Bool.false_eq_true, if_false]
        exact ⟨h1, h2, h3, h4, h5, h6⟩

/-- Helper: the invariant holds along any run. -/
theorem runFrom_inv (tr : List Event) : ∀ s : Ctx, LoopInv s → LoopInv (runFrom s tr) := by
  induction tr with
  | nil => intro s h; exact h
  | cons e tr ih => intro s h; exact ih (step s e) (step_inv s e h)

/-- Helper: the startup state satisfies the invariant. -/
theorem initCtx_inv : LoopInv initCtx := by
  refine ⟨rfl, fun _ => ⟨rfl, rfl⟩, ?_, ?_, ?_, ?_⟩ <;> intro hx <;> simp [initCtx] at hx

/-- Claim C1: along every event trace from startup, the sequence of
message payloads passed to behavior invocations is an initial segment of
the sequence of tell payloads the context accepted while not stopped, in
the same order (each invocation installs the behavior returned by the
previous one before the next dequeue); and whenever an invocation's
pending result is still awaited the context is busy, so no second
invocation can start before the settlement is processed. -/
theorem C1_tell_fifo (tr : List Event) :
    (∃ rest, (runTrace tr).handled ++ rest = (runTrace tr).arrivedTells)
    ∧ ((!(runTrace tr).pendingk.isSome) || (runTrace tr).busy) = true := by
  have h : LoopInv (runTrace tr) := runFrom_inv tr initCtx initCtx_inv
  obtain ⟨h1, h2, h3, h4, h5, h6⟩ := h
  constructor
  · refine ⟨(runTrace tr).dropped ++ msgsOf (runTrace tr).mailbox, ?_⟩
    rw [← List.append_assoc]
    exact h1
  · cases hx : (runTrace tr).pendingk.isSome
    · simp
    · simp [h3 hx]

/-- Helper: one step of a context that has swallowed a message keeps it
stuck: nothing further is handled, it stays busy, the swallowed log
persists. -/
theorem stuck_step (s : Ctx) (e : Event) (h : LoopInv s) (hd : s.dropped ≠ []) :
    (step s e).handled = s.handled ∧ (step s e).busy = true ∧ (step s e).dropped ≠ [] := by
  obtain ⟨h1, h2, h3, h4, h5, h6⟩ := h
  have hbz := (h4 hd).1
  have hpk := (h4 hd).2
  have hpknone : s.pendingk = none := by
    cases hp : s.pendingk
    · rfl
    · rw [hp] at hpk
      simp at hpk
  by_cases hcl : s.closed = true
  · simp [step, hcl, hbz, hd]
  · replace hcl : s.closed = false := by simpa using hcl
    cases e with
    | settle => simp [step, hcl, hpknone, hbz, hd]
    | env envl =>
      cases envl with
      | init b nm p par => simp [step, hcl, hbz, hd]
      | tell snd msg =>
        cases hst : s.stopped <;> simp [step, hcl, hst, hbz, hd]
      | childSpawned nm c =>
        cases hch : s.children <;> simp [step, hcl, hch, signalFault, hbz, hd]
      | childStopped c =>
        cases hch : s.children <;> simp [step, hcl, hch, signalFault, hbz, hd]
      | effectApplied idx v =>
        cases hg : s.effects.get idx <;> simp [step, hcl, hg, hbz, hd]
      | effectFailed idx v =>
        cases hg : s.effects.get idx <;> simp [step, hcl, hg, hbz, hd]
      | stopCmd => simp [step, hcl, hbz, hd]

/-- Helper: a context that has swallowed a message stays stuck along any
further trace. -/
theorem stuck_run (tr : List Event) : ∀ s : Ctx, LoopInv s → s.dropped ≠ [] →
    (runFrom s tr).handled = s.handled ∧ (runFrom s tr).busy = true
      ∧ (runFrom s tr).dropped ≠ [] := by
  induction tr with
  | nil =>
    intro s h hd
    exact ⟨rfl, (h.2.2.2.1 hd).1, hd⟩
  | cons e tr ih =>
    intro s h hd
    have hs := stuck_step s e h hd
    have ih2 := ih (step s e) (step_inv s e h) hs.2.2
    exact ⟨ih2.1.trans hs.1, ih2.2.1, ih2.2.2⟩

/-- Claim C9: a tell handled while no behavior is installed sets busy,
invokes nothing and only records the payload as swallowed; from any
invariant-satisfying state with a swallowed payload, every further trace
leaves the handled log frozen and the context busy (never idle again);
and while busy and neither stopped nor closed, a tell is only appended
to the mailbox. -/
theorem C9_no_behavior_stuck :
    (∀ (m : Msg) (s : Ctx), s.f = none →
        handleMessage m s = {s with busy := true, dropped := s.dropped ++ [m.message]})
    ∧ (∀ (s : Ctx) (tr : List Event), LoopInv s → s.dropped ≠ [] →
        (runFrom s tr).handled = s.handled ∧ (runFrom s tr).busy = true
          ∧ (runFrom s tr).dropped ≠ [])
    ∧ (∀ (s : Ctx) (snd msg : String), s.closed = false → s.stopped = false → s.busy = true →
        step s (.env (.tell snd msg))
          = {s with mailbox := s.mailbox ++ [⟨snd, msg⟩],
                    arrivedTells := s.arrivedTells ++ [msg]}) := by
  refine ⟨?_, fun s tr h hd => stuck_run tr s h hd, ?_⟩
  · intro m s hf
    unfold handleMessage
    rw [hmGo, hf]
  · intro s snd msg hcl hst hbz
    simp [step, hcl, hst, hbz]

/-- The swallowed-message state used as a concrete witness input. -/
def stuckW : Ctx := {initCtx with busy := true, dropped := ["m1"], arrivedTells := ["m1"]}

/-- Witness for C9: the startup context swallows a tell (no behavior yet),
and a concrete stuck context handles nothing further while a tell merely
queues up. -/
theorem C9_no_behavior_stuck_witness :
    handleMessage ⟨"h0", "m0"⟩ initCtx
        = {initCtx with busy := true, dropped := initCtx.dropped ++ ["m0"]}
    ∧ (runFrom stuckW [.env (.tell "h2" "m2"), .settle]).handled = stuckW.handled
    ∧ (step stuckW (.env (.tell "h2" "m2"))).mailbox = stuckW.mailbox ++ [⟨"h2", "m2"⟩] :=
  ⟨C9_no_behavior_stuck.1 ⟨"h0", "m0"⟩ initCtx rfl,
   (C9_no_behavior_stuck.2.1 stuckW [.env (.tell "h2" "m2"), .settle]
      (by decide) (by decide)).1,
   congrArg Ctx.mailbox (C9_no_behavior_stuck.2.2 stuckW "h2" "m2" rfl rfl rfl)⟩

/-- A behavior whose invocation returns a thenable that settles to a
non-callable truthy value. -/
def bPend : Behavior := .mk (fun _ id => .pendingRes id .other)

/-- A behavior whose invocation throws. -/
def bThrow : Behavior := .mk (fun _ id => .throws id)

/-- Counterexample to C3 as stated: initialize a behavior that returns a
pending result settling to a non-callable truthy value, deliver one
tell, let the pending result settle.  The TypeError is thrown inside the
promise continuation, outside the try/catch of handleMessage: no faulted
notification is posted, the worker is not closed, and the context is
left busy forever. -/
theorem C3_pending_other_not_routed :
    (runTrace [.env (.init bPend "a" "p" "q"), .env (.tell "h" "m1"), .settle]).outbox = []
    ∧ (runTrace [.env (.init bPend "a" "p" "q"), .env (.tell "h" "m1"), .settle]).closed
        = false
    ∧ (runTrace [.env (.init bPend "a" "p" "q"), .env (.tell "h" "m1"), .settle]).busy
        = true :=
  ⟨rfl, rfl, rfl⟩

/-- Claim C3 as amended: the synchronous fatal errors — a throw during a
behavior invocation, and a synchronously returned "next" that is neither
callable nor falsy — are routed to the Fault Reporter, which appends
exactly one faulted notification and closes the worker; a closed worker
processes no further envelope of any kind; but a pending result that
settles to a non-callable truthy value is NOT routed: the settlement
merely consumes the registered continuation and changes nothing else. -/
theorem C3_fault_routing :
    (∀ (s : Ctx) (m : Msg) (bf : Behavior) (ch : List (String × String)) (id2 : Ident),
        s.f = some bf → s.children = some ch →
        bf.run m.message ⟨s.name, s.path, s.parent, ch⟩ = .throws id2 →
        (handleMessage m s).outbox = s.outbox ++ [.faulted]
          ∧ (handleMessage m s).closed = true)
    ∧ (∀ (s : Ctx) (m : Msg) (bf : Behavior) (ch : List (String × String)) (id2 : Ident),
        s.f = some bf → s.children = some ch →
        bf.run m.message ⟨s.name, s.path, s.parent, ch⟩ = .sync id2 .other →
        (handleMessage m s).outbox = s.outbox ++ [.faulted]
          ∧ (handleMessage m s).closed = true)
    ∧ (∀ (s : Ctx) (e : Event), s.closed = true → step s e = s)
    ∧ (∀ s : Ctx, s.closed = false → s.pendingk = some .other →
        step s .settle = {s with pendingk := none}) := by
  refine ⟨?_, ?_, ?_, ?_⟩
  · intro s m bf ch id2 hf hch hrun
    have hinv : invokeRestore bf m.message ⟨s.name, s.path, s.parent, ch⟩
        = (id2, InvOutcome.threw) := by
      unfold invokeRestore
      rw [hrun]
    unfold handleMessage
    rw [hmGo, hf, hch]
    simp only [hinv]
    exact ⟨by simp [signalFault, postInvoke], by simp [signalFault, postInvoke]⟩
  · intro s m bf ch id2 hf hch hrun
    have hinv : invokeRestore bf m.message ⟨s.name, s.path, s.parent, ch⟩
        = (⟨s.name, s.path, s.parent, ch⟩, InvOutcome.next .other false) := by
      unfold invokeRestore
      rw [hrun]
    unfold handleMessage
    rw [hmGo, hf, hch]
    simp only [hinv]
    exact ⟨by simp [signalFault, postInvoke], by simp [signalFault, postInvoke]⟩
  · intro s e hcl
    simp [step, hcl]
  · intro s hcl hpk
    simp [step, hcl, hpk, settleNext]

/-- The throwing-behavior state used as a concrete witness input. -/
def faultW : Ctx := {initCtx with f := some bThrow, children := some []}

/-- Witness for the amended C3 at concrete inputs. -/
theorem C3_fault_routing_witness :
    (handleMessage ⟨"h", "m"⟩ faultW).outbox = faultW.outbox ++ [.faulted]
    ∧ (handleMessage ⟨"h", "m"⟩ faultW).closed = true
    ∧ step {faultW with closed := true} .settle = {faultW with closed := true}
    ∧ (step {initCtx with pendingk := some .other} .settle).pendingk = none :=
  ⟨(C3_fault_routing.1 faultW ⟨"h", "m"⟩ bThrow [] ⟨"", "", "", []⟩ rfl rfl rfl).1,
   (C3_fault_routing.1 faultW ⟨"h", "m"⟩ bThrow [] ⟨"", "", "", []⟩ rfl rfl rfl).2,
   C3_fault_routing.2.2.1 {faultW with closed := true} .settle rfl,
   congrArg Ctx.pendingk
     (C3_fault_routing.2.2.2 {initCtx with pendingk := some .other} rfl rfl)⟩
